import Mathlib

/-!
Verification of the core of `check_cisco_uc_perf.go` (a Nagios plugin that
monitors Cisco Unified Communications performance counters).

The Go source is shallowly embedded: Go strings become `List Char`, the
IEEE-754 `float64` values that the program only ever parses from decimal
text and compares are modeled as exact rationals (`ℚ`), and the ambient
filesystem used by the cache is modeled as an explicit association list
from file names to entries.  Functions keep their Go names where possible.
-/

namespace CiscoUcPerf

/-! ## String utilities mirroring the Go standard library -/

/-- Go `strings.Split(s, sep)` for a one-character separator: splits around
every occurrence of `sep`; the empty string yields `[[]]`. -/
def splitSep (sep : Char) : List Char → List (List Char)
  | [] => [[]]
  | c :: rest =>
    if c = sep then
      [] :: splitSep sep rest
    else
      match splitSep sep rest with
      | [] => [[c]]
      | h :: t => (c :: h) :: t

/-- Go `strings.HasSuffix(s, ":")`: the last character is a colon. -/
def endsWithColon (l : List Char) : Bool :=
  match l.getLast? with
  | some c => c = ':'
  | none => false

/-- Go `strings.HasPrefix(s, c)` for a one-character pattern. -/
def headIs (c : Char) (l : List Char) : Bool :=
  match l with
  | c' :: _ => c' = c
  | [] => false

/-- Go `strings.TrimPrefix(s, "@")`: drops one leading `@` when present. -/
def trimLeadingAt (l : List Char) : List Char :=
  match l with
  | [] => []
  | c :: t => if c = '@' then t else c :: t

/-- Character class `[0-9.]` of the dispatch regular expression. -/
def isNumDot (c : Char) : Bool :=
  c.isDigit || c = '.'

/-- Go `regexp.MatchString` for the pattern `^[0-9.]+:[0-9.]+` used by
`generateAlert`: the string starts with a nonempty run of digits/dots,
followed by a colon, followed by at least one digit/dot.  (Since the class
`[0-9.]` excludes `:`, a match exists exactly when every character before
the first colon is in the class, the prefix before it is nonempty, and the
character right after the colon is in the class.) -/
def matchNumColonNum (l : List Char) : Bool :=
  (!(l.takeWhile isNumDot).isEmpty) &&
    (match l.dropWhile isNumDot with
     | c :: c' :: _ => c = ':' && isNumDot c'
     | _ => false)

/-! ## Model of `strconv.ParseFloat`

The program feeds `ParseFloat` decimal threshold components and decimal
counter values.  The model covers the decimal syntax (optional sign,
digits with at most one dot and at least one digit, optional `e`/`E`
exponent); every other input is a parse failure.  `parseFloatQ` mirrors the
call sites of `generateAlert`, which ignore the error and therefore see the
zero value on failure. -/

/-- Numeric value of a digit string, most significant digit first. -/
def digitsVal (l : List Char) : ℕ :=
  l.foldl (fun acc c => 10 * acc + (c.toNat - 48)) 0

/-- Parse an optional exponent part `e[+-]?d+` at the end of a float
literal.  When the exponent syntax is incomplete nothing is consumed (the
leftover characters then fail the totality check of `parseGoFloat`). -/
def parseExpPart (l : List Char) : ℤ × List Char :=
  match l with
  | [] => (0, [])
  | c :: t =>
    if c = 'e' ∨ c = 'E' then
      let (eneg, t2) :=
        match t with
        | [] => (false, ([] : List Char))
        | c' :: t' => if c' = '+' then (false, t') else if c' = '-' then (true, t') else (false, c' :: t')
      let ed := t2.takeWhile Char.isDigit
      if ed.isEmpty then (0, c :: t)
      else ((if eneg then -(digitsVal ed : ℤ) else (digitsVal ed : ℤ)), t2.dropWhile Char.isDigit)
    else (0, c :: t)

/-- The mantissa/exponent part of the `strconv.ParseFloat` model, after the
optional sign has been consumed.  The numeric value of the literal
`ip . fp e ex` is `sign * (ip * 10^|fp| + fp) * 10^ex / 10^|fp|`, assembled
with integer arithmetic and a single `Rat.divInt`. -/
def parseAfterSign (neg : Bool) (l1 : List Char) : Option ℚ :=
  let ip := l1.takeWhile Char.isDigit
  let l2 := l1.dropWhile Char.isDigit
  let (fp, l3) :=
    match l2 with
    | [] => (([] : List Char), ([] : List Char))
    | c :: t =>
      if c = '.' then (t.takeWhile Char.isDigit, t.dropWhile Char.isDigit)
      else (([] : List Char), c :: t)
  let (ex, l4) := parseExpPart l3
  if ip.isEmpty ∧ fp.isEmpty then none
  else if ¬ l4.isEmpty then none
  else
    let m : ℕ := digitsVal ip * 10 ^ fp.length + digitsVal fp
    let n : ℤ := (if neg then -(m : ℤ) else (m : ℤ)) * 10 ^ ex.toNat
    let d : ℤ := 10 ^ (fp.length + (-ex).toNat)
    some (Rat.divInt n d)

/-- Model of Go `strconv.ParseFloat` on decimal syntax: `none` is a parse
error (Go returns an error and the zero value). -/
def parseGoFloat (l : List Char) : Option ℚ :=
  match l with
  | [] => parseAfterSign false []
  | c :: t =>
    if c = '+' then parseAfterSign false t
    else if c = '-' then parseAfterSign true t
    else parseAfterSign false (c :: t)

/-- The float value the Go code actually uses after
`f, _ := strconv.ParseFloat(s, 64)`: the parsed value, or zero when the
parse failed. -/
def parseFloatQ (l : List Char) : ℚ :=
  (parseGoFloat l).getD 0

/-! ## ThresholdEvaluator -/

/-- Embedding of `generateAlert` (v0.8 lines 750–773, identical in v0.3):
matches a value against a Nagios threshold range string and returns `true`
when an alert must be raised.  The cases are tested in source order; a
string matching no case falls through to `true`. -/
def generateAlert (value : ℚ) (thresholdRange : List Char) : Bool :=
  let r := splitSep ':' thresholdRange
  let matched := matchNumColonNum thresholdRange
  if r.length = 1 then
    decide (value < 0) || decide (value > parseFloatQ thresholdRange)
  else if endsWithColon thresholdRange then
    decide (value < parseFloatQ (r.getD 0 []))
  else if headIs '~' thresholdRange then
    decide (value > parseFloatQ (r.getD 1 []))
  else if matched then
    decide (value < parseFloatQ (r.getD 0 [])) || decide (value > parseFloatQ (r.getD 1 []))
  else if headIs '@' thresholdRange then
    decide (parseFloatQ (trimLeadingAt (r.getD 0 [])) ≤ value) &&
      decide (value ≤ parseFloatQ (r.getD 1 []))
  else
    true

/-- Embedding of `getNagiosReturnVal` (v0.8 lines 735–744): starts at OK,
overwrites with WARNING when the warning range fires, then with CRITICAL
when the critical range fires. -/
def getNagiosReturnVal (value : ℚ) (warningThresholdRange criticalThresholdRange : List Char) : ℕ :=
  let r0 : ℕ := 0
  let r1 : ℕ := if generateAlert value warningThresholdRange then 1 else r0
  let r2 : ℕ := if generateAlert value criticalThresholdRange then 2 else r1
  r2

/-- Embedding of `returnValText` (v0.8 lines 775–790). -/
def returnValText (returnVal : ℕ) : List Char :=
  match returnVal with
  | 0 => ("OK".data)
  | 1 => ("WARNING".data)
  | 2 => ("CRITICAL".data)
  | 3 => ("UNKNOWN".data)
  | _ => []

/-! ## Unsigned decimal numerals

The dispatch pattern of `generateAlert` recognizes numeric components drawn
from the class `[0-9.]`; a well-formed component has at most one dot and at
least one digit.  `udecVal` is its numeric value. -/

/-- A well-formed unsigned decimal numeral: only digits and dots, at most
one dot, at least one digit. -/
def IsUDec (l : List Char) : Prop :=
  (∀ c ∈ l, isNumDot c) ∧ l.count '.' ≤ 1 ∧ ∃ c ∈ l, c.isDigit

/-- Value of an unsigned decimal numeral `ip[.fp]`. -/
def udecVal (l : List Char) : ℚ :=
  let ip := l.takeWhile Char.isDigit
  let fp :=
    match l.dropWhile Char.isDigit with
    | _ :: t => t
    | [] => []
  Rat.divInt (digitsVal ip * 10 ^ fp.length + digitsVal fp) (10 ^ fp.length)

/-! ## Fully-qualified counter names -/

/-- Scan for the first backslash that is not preceded by a newline; returns
the prefix before it and the remainder after it.  This is the building
block for the `.*\\` pieces of the qualification regular expression, whose
`.` does not match a newline. -/
def findBS : List Char → Option (List Char × List Char)
  | [] => none
  | c :: t =>
    if c = '\\' then some ([], t)
    else if c = '\n' then none
    else (findBS t).map (fun p => (c :: p.1, p.2))

/-- Two further backslashes occur, each reachable without crossing a
newline: the `.*\\.*\\` middle of the qualification pattern. -/
def hasTwoBS (l : List Char) : Bool :=
  match findBS l with
  | some (_, r1) => (findBS r1).isSome
  | none => false

/-- Embedding of `isFullQualified` (v0.8 lines 666–677): Go
`regexp.MatchString` of the anchored pattern `^\\\\.*\\.*\\.*` — the name
starts with two backslashes and two further backslashes follow, each
reachable without crossing a newline. -/
def isFullQualified (counterName : List Char) : Bool :=
  match counterName with
  | c1 :: c2 :: rest => c1 = '\\' && c2 = '\\' && hasTwoBS rest
  | _ => false

/-- The fully-qualified counter name used by `queryHost` (v0.8 lines
930–935): an already-qualified name is passed through, otherwise
`\\<node>\<objectInstance>\<counter>` is synthesized. -/
def buildFullCounterName (nodeIpAddr objectInstance counterName : List Char) : List Char :=
  if isFullQualified counterName then counterName
  else '\\' :: '\\' :: nodeIpAddr ++ '\\' :: objectInstance ++ '\\' :: counterName

/-! ## Output rendering -/

/-- Replacement applied to each character by Go `html.EscapeString`. -/
def htmlEscapeChar (c : Char) : List Char :=
  if c = '&' then ("&amp;".data)
  else if c = '\'' then ("&#39;".data)
  else if c = '<' then ("&lt;".data)
  else if c = '>' then ("&gt;".data)
  else if c = '"' then ("&#34;".data)
  else [c]

/-- Per-character form of `strings.Replace(s, "%", "Percent", -1)`. -/
def percentChar (c : Char) : List Char :=
  if c = '%' then ("Percent".data) else [c]

/-- Per-character form of Go `strings.Replace(s, bs, bs+bs, -1)` where `bs`
is a single backslash. -/
def backslashDoubleChar (c : Char) : List Char :=
  if c = '\\' then ['\\', '\\'] else [c]

/-- A global replace whose pattern is a single character acts on every
character independently. -/
def replaceAll (f : Char → List Char) (l : List Char) : List Char :=
  l.flatMap f

/-- The plain `fmt.Sprintf` line of v0.8 line 951, before escaping; the
constant `outputPrefix` of v0.8 is the literal `UC Perfmon`. -/
def plainStatusLine (statusStr objectInstance counterName valueText warn crit : List Char) : List Char :=
  statusStr ++ (" - ".data) ++ ("UC Perfmon".data) ++ (",".data) ++ objectInstance ++ (",".data) ++
    counterName ++ ("=".data) ++ valueText ++ ("|".data) ++ counterName ++ ("=".data) ++ valueText ++
    (";".data) ++ warn ++ (";".data) ++ crit ++ (";;".data)

/-- Embedding of v0.8 lines 951–954: format, HTML-escape, replace `%` with
`Percent`, double every backslash. -/
def renderNagiosLine (statusStr objectInstance counterName valueText warn crit : List Char) : List Char :=
  replaceAll backslashDoubleChar
    (replaceAll percentChar
      (replaceAll htmlEscapeChar
        (plainStatusLine statusStr objectInstance counterName valueText warn crit)))

/-- The combined per-character escape claimed by the specification: an
HTML-special character becomes its entity, `%` becomes the word `Percent`,
a backslash is doubled, and everything else is untouched. -/
def escChar (c : Char) : List Char :=
  replaceAll backslashDoubleChar (replaceAll percentChar (htmlEscapeChar c))

/-- The combined escape applied to a whole field. -/
def escAll (l : List Char) : List Char :=
  l.flatMap escChar

/-! ## Remote counter snapshot data model (v0.8 `CounterEnvelope`)

Each XML field of the v0.8 wire shape carries its character data plus a
`type` wrapper attribute. -/

structure AttrText where
  text : List Char
  typeAttr : List Char
deriving DecidableEq, Repr

/-- One `<item>` of `ArrayOfCounterInfo`: name, value and counter status. -/
structure CounterInfoItem where
  text : List Char
  typeAttr : List Char
  name : AttrText
  value : AttrText
  cstatus : AttrText
deriving DecidableEq, Repr

structure ArrayOfCounterInfoWrap where
  text : List Char
  arrayType : List Char
  typeAttr : List Char
  ns2 : List Char
  soapenc : List Char
  items : List CounterInfoItem
deriving DecidableEq, Repr

structure CollectCounterDataResp where
  text : List Char
  encodingStyle : List Char
  ns1 : List Char
  arrayOfCounterInfo : ArrayOfCounterInfoWrap
deriving DecidableEq, Repr

structure EnvelopeBody where
  text : List Char
  response : CollectCounterDataResp
deriving DecidableEq, Repr

/-- Embedding of the v0.8 `CounterEnvelope` struct (lines 549–586); the
`xml.Name` is a (namespace, local) pair of strings. -/
structure CounterEnvelope where
  xmlSpace : List Char
  xmlLocal : List Char
  text : List Char
  soapenv : List Char
  xsd : List Char
  xsi : List Char
  body : EnvelopeBody
deriving DecidableEq, Repr

/-! ## CounterCache (`saveStruct` / `loadStruct`)

The ambient filesystem is modeled as an association list from file names to
entries carrying a modification time; `encoding/json` round-trips the
all-string `CounterEnvelope` struct exactly, so the stored content is
modeled as the decoded value. -/

structure CacheEntry where
  content : CounterEnvelope
  modTime : ℤ
deriving DecidableEq

structure FSState where
  files : List (List Char × CacheEntry)
deriving DecidableEq

def fsLookup (fs : FSState) (filename : List Char) : Option CacheEntry :=
  (fs.files.find? (fun e => e.1 == filename)).map (fun e => e.2)

/-- Go `strings.Replace(object, " ", "_", -1)` (v0.8 lines 688, 704). -/
def underscored (object : List Char) : List Char :=
  object.map (fun ch => if ch = ' ' then '_' else ch)

/-- The cache file name of v0.8 lines 688–689 and 704–705:
`fmt.Sprintf` of cache path, the constant `chacheFilePrefix`
(`check_cisco_uc_perf_`), the numeric uid, the target address and the
space-normalized object name. -/
def cacheFileName (cacheFilePath : List Char) (uid : ℕ) (ipAddr object : List Char) : List Char :=
  cacheFilePath ++ ("check_cisco_uc_perf_".data) ++ (Nat.repr uid).data ++ ("_".data) ++
    ipAddr ++ ("_".data) ++ underscored object

/-- Embedding of `saveStruct` (v0.8 lines 680–699): marshal the envelope
and write it to the computed cache file name; the write stamps the current
time as the file's modification time. -/
def saveStruct (fs : FSState) (now : ℤ) (cacheFilePath : List Char) (uid : ℕ)
    (ipAddr object : List Char) (o : CounterEnvelope) : FSState :=
  ⟨(cacheFileName cacheFilePath uid ipAddr object, ⟨o, now⟩) :: fs.files⟩

/-- Embedding of `loadStruct` (v0.8 lines 702–729): miss when the file does
not exist or its age `now - modTime` strictly exceeds `ageInSeconds`;
otherwise the deserialized envelope. -/
def loadStruct (fs : FSState) (now : ℤ) (cacheFilePath : List Char) (uid : ℕ)
    (ipAddr object : List Char) (ageInSeconds : ℤ) : Option CounterEnvelope :=
  match fsLookup fs (cacheFileName cacheFilePath uid ipAddr object) with
  | none => none
  | some entry => if now - entry.modTime > ageInSeconds then none else some entry.content

/-! ## SingleTargetProbe and MultiTargetOrchestrator

`queryHostRun` embeds the verdict part of `queryHost` (v0.8 lines
930–968): the snapshot items are the normalized result of the cache /
remote-fetch step (the HTTPS transport is an external collaborator).  The
result is either `exitCode n` — `os.Exit(n)` ends the process — or `next`:
the function returns and the orchestrator continues, paired with the lines
printed to standard output. -/

inductive StepResult where
  | exitCode (code : ℕ)
  | next
deriving DecidableEq, Repr

def queryHostRun (multipeNodes : Bool) (items : List CounterInfoItem)
    (nodeIpAddr objectInstance counterName warningThreshold criticalThreshold : List Char) :
    StepResult × List (List Char) :=
  if counterName.length > 0 then
    let fullCounterName := buildFullCounterName nodeIpAddr objectInstance counterName
    match items.find? (fun v => v.name.text == fullCounterName) with
    | some v =>
      match parseGoFloat v.value.text with
      | none => (.exitCode 3, [])
      | some value =>
        let rv := getNagiosReturnVal value warningThreshold criticalThreshold
        (.exitCode rv,
          [renderNagiosLine (returnValText rv) objectInstance counterName v.value.text
            warningThreshold criticalThreshold])
    | none =>
      if multipeNodes then (.next, [])
      else (.exitCode 3, [returnValText 3 ++ (" - Counter not found: ".data) ++ fullCounterName])
  else (.next, [])

/-- The multi-node loop of v0.8 `main` (lines 1014–1017): the targets are
probed strictly in turn; a probe that calls `os.Exit` ends the process with
that code, and if every probe returns, `main` returns and the process exits
with code 0. -/
def runMulti (envf : List Char → List CounterInfoItem) (nodes : List (List Char))
    (objectInstance counterName warn crit : List Char) : ℕ × List (List Char) :=
  match nodes with
  | [] => (0, [])
  | node :: rest =>
    match queryHostRun true (envf node) node objectInstance counterName warn crit with
    | (.exitCode k, out) => (k, out)
    | (.next, out) =>
      let r := runMulti envf rest objectInstance counterName warn crit
      (r.1, out ++ r.2)

/-- Embedding of the tail of v0.8 `main` (lines 1005–1021): split the node
list on commas, set `multipeNodes` when more than one node results, and run
`queryHost` per node (multi) or once for the `-N` node (single).
`envf` gives each node's normalized snapshot. -/
def mainRun (envf : List Char → List CounterInfoItem)
    (nodesIpAddrs nodeIpAddr objectInstance counterName warn crit : List Char) :
    ℕ × List (List Char) :=
  let nodes := splitSep ',' nodesIpAddrs
  if nodes.length > 1 then runMulti envf nodes objectInstance counterName warn crit
  else
    match queryHostRun false (envf nodeIpAddr) nodeIpAddr objectInstance counterName warn crit with
    | (.exitCode k, out) => (k, out)
    | (.next, out) => (0, out)

/-! ## Specification-side definitions (for refinement comparisons) -/

/-- Modelled from the spec: `classify` returns CRITICAL if the critical
range fires, else WARNING if the warning range fires, else OK. -/
def classifySpec (value : ℚ) (warn crit : List Char) : ℕ :=
  if generateAlert value crit then 2
  else if generateAlert value warn then 1
  else 0

/-- Modelled from the spec: severity order CRITICAL > WARNING > UNKNOWN > OK. -/
def severityRank (code : ℕ) : ℕ :=
  match code with
  | 2 => 3
  | 1 => 2
  | 3 => 1
  | _ => 0

/-- Modelled from the spec: reduce a set of per-target codes with
highest-severity-wins. -/
def worstCode (codes : List ℕ) : ℕ :=
  codes.foldl (fun a b => if severityRank a < severityRank b then b else a) 0

/-! ## The v0.3 full-snapshot listing (empty counter name)

v0.3 `main` (lines 446–461) prints every sample of the snapshot with the
`Value:` column aligned past the longest name. -/

structure Sample where
  name : List Char
  value : List Char
deriving DecidableEq, Repr

/-- The `max_len` loop of v0.3 lines 448–453. -/
def maxNameLen (items : List Sample) : ℕ :=
  items.foldl (fun m s => if s.name.length > m then s.name.length else m) 0

/-- One printed line: `Name: <name><spaces>Value: <value>` with
`max_len + 3 - len(name)` spaces. -/
def alignedLine (maxLen : ℕ) (s : Sample) : List Char :=
  ("Name: ".data) ++ s.name ++ List.replicate (maxLen + 3 - s.name.length) ' ' ++
    ("Value: ".data) ++ s.value

/-- The listing printed by v0.3 lines 455–459, in snapshot order. -/
def printSnapshotAligned (items : List Sample) : List (List Char) :=
  items.map (alignedLine (maxNameLen items))

/-- Exit code and output of a v0.3 run that reaches the empty-counter-name
branch: the listing is printed, no threshold is evaluated, `main` returns
and the process exits 0. -/
def runListingV03 (items : List Sample) : ℕ × List (List Char) :=
  (0, printSnapshotAligned items)

/-- Lexicographic comparison of names, used only to express the
specification's words `sorted by name`. -/
def lexLe : List Char → List Char → Bool
  | [], _ => true
  | _ :: _, [] => false
  | c :: t, c' :: t' => if c = c' then lexLe t t' else decide (c < c')

def insertByName (s : Sample) : List Sample → List Sample
  | [] => [s]
  | t :: r => if lexLe s.name t.name then s :: t :: r else t :: insertByName s r

def sortByName (l : List Sample) : List Sample :=
  l.foldr insertByName []

/-- Modelled from the spec: `print the full snapshot sorted by name with
aligned columns`. -/
def sortedListingSpec (items : List Sample) : List (List Char) :=
  printSnapshotAligned (sortByName items)

/-- A concrete one-counter snapshot used by concrete instances below. -/
def sampleEnvelope : CounterEnvelope :=
  ⟨[], ("Envelope".data), [], [], [], [],
    ⟨[], ⟨[], [], [],
      ⟨[], [], [], [], [],
        [⟨[], [], ⟨("\\\\10.0.0.1\\Memory\\UsedMB".data), []⟩, ⟨("512".data), []⟩,
          ⟨("1".data), []⟩⟩]⟩⟩⟩⟩

/-! ## List helper lemmas -/

theorem takeWhile_of_all {p : Char → Bool} {l : List Char} (h : ∀ c ∈ l, p c) :
    l.takeWhile p = l := by
  induction l with
  | nil => rfl
  | cons c t ih =>
    have hc : p c := h c (by simp)
    simp only [List.takeWhile_cons, hc, if_true]
    rw [ih (fun x hx => h x (by simp [hx]))]

theorem dropWhile_of_all {p : Char → Bool} {l : List Char} (h : ∀ c ∈ l, p c) :
    l.dropWhile p = [] := by
  induction l with
  | nil => rfl
  | cons c t ih =>
    have hc : p c := h c (by simp)
    simp only [List.dropWhile_cons, hc, if_true]
    exact ih (fun x hx => h x (by simp [hx]))

theorem takeWhile_append_stop {p : Char → Bool} {l₁ : List Char} (x : Char) (l₂ : List Char)
    (h : ∀ c ∈ l₁, p c) (hx : p x = false) :
    (l₁ ++ x :: l₂).takeWhile p = l₁ := by
  induction l₁ with
  | nil => simp [List.takeWhile_cons, hx]
  | cons c t ih =>
    have hc : p c := h c (by simp)
    simp only [List.cons_append, List.takeWhile_cons, hc, if_true]
    rw [ih (fun y hy => h y (by simp [hy]))]

theorem dropWhile_append_stop {p : Char → Bool} {l₁ : List Char} (x : Char) (l₂ : List Char)
    (h : ∀ c ∈ l₁, p c) (hx : p x = false) :
    (l₁ ++ x :: l₂).dropWhile p = x :: l₂ := by
  induction l₁ with
  | nil => simp [List.dropWhile_cons, hx]
  | cons c t ih =>
    have hc : p c := h c (by simp)
    simp only [List.cons_append, List.dropWhile_cons, hc, if_true]
    exact ih (fun y hy => h y (by simp [hy]))

theorem splitSep_no_sep {sep : Char} {l : List Char} (h : ∀ c ∈ l, ¬ c = sep) :
    splitSep sep l = [l] := by
  induction l with
  | nil => rfl
  | cons c t ih =>
    have hc : ¬ c = sep := h c (by simp)
    simp only [splitSep, if_neg hc]
    rw [ih (fun x hx => h x (by simp [hx]))]

theorem splitSep_split {sep : Char} {l₁ : List Char} (l₂ : List Char)
    (h : ∀ c ∈ l₁, ¬ c = sep) :
    splitSep sep (l₁ ++ sep :: l₂) = l₁ :: splitSep sep l₂ := by
  induction l₁ with
  | nil => simp [splitSep]
  | cons c t ih =>
    have hc : ¬ c = sep := h c (by simp)
    have ht := ih (fun x hx => h x (by simp [hx]))
    simp only [List.cons_append, splitSep, if_neg hc, List.append_eq, ht]

theorem getLast_append_cons (l₁ : List Char) (c : Char) (l₂ : List Char) :
    (l₁ ++ c :: l₂).getLast? = (c :: l₂).getLast? := by
  induction l₁ with
  | nil => rfl
  | cons x t ih =>
    rw [List.cons_append, List.getLast?_cons, ih]
    cases t <;> simp [List.getLast?_cons]

/-! ## Numeral lemmas -/

theorem dropWhile_head_not {p : Char → Bool} : ∀ {l : List Char} {c t}, l.dropWhile p = c :: t → p c = false := by
  intro l
  induction l with
  | nil => intro c t hct; simp at hct
  | cons x r ih =>
    intro c t hct
    by_cases hx : p x
    · rw [List.dropWhile_cons, if_pos hx] at hct
      exact ih hct
    · rw [List.dropWhile_cons, if_neg hx] at hct
      cases hct
      exact Bool.of_not_eq_true hx

theorem mem_takeWhile_sat {p : Char → Bool} : ∀ {l : List Char} {c}, c ∈ l.takeWhile p → p c := by
  intro l
  induction l with
  | nil => intro c hc; simp at hc
  | cons x r ih =>
    intro c hc
    by_cases hx : p x
    · rw [List.takeWhile_cons, if_pos hx] at hc
      rcases List.mem_cons.mp hc with h | h
      · exact h ▸ hx
      · exact ih h
    · rw [List.takeWhile_cons, if_neg hx] at hc
      simp at hc

theorem isUDec_shape {l : List Char} (h : IsUDec l) :
    ((∀ c ∈ l, c.isDigit) ∧ l ≠ []) ∨
      ∃ ip fp, l = ip ++ '.' :: fp ∧ (∀ c ∈ ip, c.isDigit) ∧ (∀ c ∈ fp, c.isDigit) ∧
        (ip ≠ [] ∨ fp ≠ []) := by
  obtain ⟨hnd, hcount, c0, hc0mem, hc0dig⟩ := h
  have hsplit : l.takeWhile Char.isDigit ++ l.dropWhile Char.isDigit = l :=
    List.takeWhile_append_dropWhile _ _
  cases hd : l.dropWhile Char.isDigit with
  | nil =>
    left
    refine ⟨List.dropWhile_eq_nil_iff.mp hd, ?_⟩
    intro hnil
    rw [hnil] at hc0mem
    simp at hc0mem
  | cons d t =>
    right
    have hddig : d.isDigit = false := dropWhile_head_not hd
    have hdmem : d ∈ l := by
      rw [← hsplit, hd]
      exact List.mem_append_right _ (by simp)
    have hddot : d = '.' := by
      have := hnd d hdmem
      rw [isNumDot, hddig] at this
      simpa using this
    have hldec : l = l.takeWhile Char.isDigit ++ '.' :: t := by
      rw [← hddot, ← hd, hsplit]
    have hipdig : ∀ c ∈ l.takeWhile Char.isDigit, c.isDigit := fun c hc => mem_takeWhile_sat hc
    have hipnodot : (l.takeWhile Char.isDigit).count '.' = 0 := by
      rw [List.count_eq_zero]
      intro hdotmem
      have := hipdig _ hdotmem
      simp at this
    have htnodot : t.count '.' = 0 := by
      rw [hldec, List.count_append, List.count_cons_self, hipnodot] at hcount
      omega
    have hfpdig : ∀ c ∈ t, c.isDigit := by
      intro c hc
      have hmem : c ∈ l := by
        rw [hldec]
        exact List.mem_append_right _ (by simp [hc])
      have hnum := hnd c hmem
      have hne : ¬ c = '.' := by
        intro heq
        rw [List.count_eq_zero] at htnodot
        exact htnodot (heq ▸ hc)
      rw [isNumDot] at hnum
      rcases Bool.or_eq_true_iff.mp hnum with hdig | hdot
      · exact hdig
      · exact absurd (by simpa using hdot) hne
    refine ⟨l.takeWhile Char.isDigit, t, hldec, hipdig, hfpdig, ?_⟩
    rw [hldec] at hc0mem
    rcases List.mem_append.mp hc0mem with hmem | hmem
    · exact Or.inl (by intro hnil; rw [hnil] at hmem; simp at hmem)
    · rcases List.mem_cons.mp hmem with heq | hmem
      · rw [heq] at hc0dig; simp at hc0dig
      · exact Or.inr (by intro hnil; rw [hnil] at hmem; simp at hmem)

theorem parseAfterSign_digits {l : List Char} (h : ∀ c ∈ l, c.isDigit) (hne : l ≠ []) :
    parseAfterSign false l = some (Rat.divInt (digitsVal l) 1) := by
  have htake : l.takeWhile Char.isDigit = l := takeWhile_of_all h
  have hdrop : l.dropWhile Char.isDigit = [] := dropWhile_of_all h
  have hcond : ¬ (l.isEmpty = true ∧ List.isEmpty ([] : List Char) = true) := by
    intro hco
    exact hne (List.isEmpty_iff.mp hco.1)
  simp only [parseAfterSign, htake, hdrop, parseExpPart]
  rw [if_neg hcond]
  norm_num [digitsVal]

theorem parseAfterSign_digits_dot {ip fp : List Char} (hip : ∀ c ∈ ip, c.isDigit)
    (hfp : ∀ c ∈ fp, c.isDigit) (hne : ip ≠ [] ∨ fp ≠ []) :
    parseAfterSign false (ip ++ '.' :: fp) =
      some (Rat.divInt (digitsVal ip * 10 ^ fp.length + digitsVal fp) (10 ^ fp.length)) := by
  have hdotdig : Char.isDigit '.' = false := by decide
  have htake : (ip ++ '.' :: fp).takeWhile Char.isDigit = ip :=
    takeWhile_append_stop _ _ hip hdotdig
  have hdrop : (ip ++ '.' :: fp).dropWhile Char.isDigit = '.' :: fp :=
    dropWhile_append_stop _ _ hip hdotdig
  have htakefp : fp.takeWhile Char.isDigit = fp := takeWhile_of_all hfp
  have hdropfp : fp.dropWhile Char.isDigit = [] := dropWhile_of_all hfp
  have hcond : ¬ (ip.isEmpty = true ∧ fp.isEmpty = true) := by
    intro hco
    rcases hne with h | h
    · exact h (List.isEmpty_iff.mp hco.1)
    · exact h (List.isEmpty_iff.mp hco.2)
  simp only [parseAfterSign, htake, hdrop]
  simp only [eq_self_iff_true, if_true, htakefp, hdropfp, parseExpPart]
  rw [if_neg hcond]
  norm_num

theorem parseGoFloat_digits {l : List Char} (h : ∀ c ∈ l, c.isDigit) (hne : l ≠ []) :
    parseGoFloat l = some (Rat.divInt (digitsVal l) 1) := by
  obtain ⟨c, t, rfl⟩ := List.exists_cons_of_ne_nil hne
  have hc : c.isDigit := h c (by simp)
  have hplus : ¬ c = '+' := by intro he; rw [he] at hc; exact absurd hc (by decide)
  have hminus : ¬ c = '-' := by intro he; rw [he] at hc; exact absurd hc (by decide)
  rw [parseGoFloat, if_neg hplus, if_neg hminus]
  exact parseAfterSign_digits h hne

theorem parseGoFloat_digits_dot {ip fp : List Char} (hip : ∀ c ∈ ip, c.isDigit)
    (hfp : ∀ c ∈ fp, c.isDigit) (hne : ip ≠ [] ∨ fp ≠ []) :
    parseGoFloat (ip ++ '.' :: fp) =
      some (Rat.divInt (digitsVal ip * 10 ^ fp.length + digitsVal fp) (10 ^ fp.length)) := by
  have hstep : parseGoFloat (ip ++ '.' :: fp) = parseAfterSign false (ip ++ '.' :: fp) := by
    cases ip with
    | nil =>
      rw [List.nil_append, parseGoFloat, if_neg (by decide : ¬ '.' = '+'),
        if_neg (by decide : ¬ '.' = '-')]
    | cons c t =>
      have hc : c.isDigit := hip c (by simp)
      have hplus : ¬ c = '+' := by intro he; rw [he] at hc; exact absurd hc (by decide)
      have hminus : ¬ c = '-' := by intro he; rw [he] at hc; exact absurd hc (by decide)
      rw [List.cons_append, parseGoFloat, if_neg hplus, if_neg hminus]
  rw [hstep]
  exact parseAfterSign_digits_dot hip hfp hne

theorem udecVal_digits {l : List Char} (h : ∀ c ∈ l, c.isDigit) :
    udecVal l = Rat.divInt (digitsVal l) 1 := by
  simp only [udecVal, takeWhile_of_all h, dropWhile_of_all h]
  norm_num [digitsVal]

theorem udecVal_digits_dot {ip fp : List Char} (hip : ∀ c ∈ ip, c.isDigit)
    (_hfp : ∀ c ∈ fp, c.isDigit) :
    udecVal (ip ++ '.' :: fp) =
      Rat.divInt (digitsVal ip * 10 ^ fp.length + digitsVal fp) (10 ^ fp.length) := by
  have hdotdig : Char.isDigit '.' = false := by decide
  cases ip with
  | nil =>
    simp only [List.nil_append, udecVal, List.takeWhile_cons, hdotdig, List.dropWhile_cons]
    norm_num [digitsVal]
  | cons c t =>
    have htake : ((c :: t) ++ '.' :: fp).takeWhile Char.isDigit = c :: t :=
      takeWhile_append_stop _ _ hip hdotdig
    have hdrop : ((c :: t) ++ '.' :: fp).dropWhile Char.isDigit = '.' :: fp :=
      dropWhile_append_stop _ _ hip hdotdig
    simp only [udecVal, htake, hdrop]

theorem parseGoFloat_udec {l : List Char} (h : IsUDec l) :
    parseGoFloat l = some (udecVal l) := by
  rcases isUDec_shape h with ⟨hd, hne⟩ | ⟨ip, fp, rfl, hip, hfp, hne⟩
  · rw [parseGoFloat_digits hd hne, udecVal_digits hd]
  · rw [parseGoFloat_digits_dot hip hfp hne, udecVal_digits_dot hip hfp]

theorem parseFloatQ_udec {l : List Char} (h : IsUDec l) : parseFloatQ l = udecVal l := by
  rw [parseFloatQ, parseGoFloat_udec h]
  rfl

theorem parseFloatQ_of_fail {l : List Char} (h : parseGoFloat l = none) : parseFloatQ l = 0 := by
  rw [parseFloatQ, h]
  rfl

theorem isUDec_no_colon {l : List Char} (h : IsUDec l) : ∀ c ∈ l, ¬ c = ':' := by
  intro c hc he
  have := h.1 c hc
  rw [he] at this
  exact absurd this (by decide)

theorem isUDec_ne_nil {l : List Char} (h : IsUDec l) : l ≠ [] := by
  obtain ⟨-, -, c, hc, -⟩ := h
  intro hn
  rw [hn] at hc
  simp at hc

theorem isUDec_getLast_numDot {l : List Char} (h : IsUDec l) :
    ∃ c, l.getLast? = some c ∧ isNumDot c := by
  have hne := isUDec_ne_nil h
  exact ⟨l.getLast hne, List.getLast?_eq_getLast l hne, h.1 _ (List.getLast_mem hne)⟩

instance (l : List Char) : Decidable (IsUDec l) := by
  unfold IsUDec
  infer_instance

theorem getLastQ_mem {l : List Char} {c : Char} (h : l.getLast? = some c) : c ∈ l := by
  obtain ⟨hne, rfl⟩ := List.mem_getLast?_eq_getLast h
  exact List.getLast_mem hne

theorem endsWithColon_false_of_no_colon {m : List Char} (hnc : ∀ c ∈ m, ¬ c = ':')
    (hne : m ≠ []) (l₁ : List Char) (c0 : Char) :
    endsWithColon (l₁ ++ c0 :: m) = false := by
  obtain ⟨d, t, rfl⟩ := List.exists_cons_of_ne_nil hne
  rw [endsWithColon, getLast_append_cons, show (c0 :: d :: t) = [c0] ++ d :: t from rfl,
    getLast_append_cons, List.getLast?_eq_getLast (d :: t) (by simp)]
  have : ¬ (d :: t).getLast (by simp) = ':' := hnc _ (List.getLast_mem _)
  simp [this]

theorem generateAlert_branch1 (v : ℚ) {l : List Char} (h : (splitSep ':' l).length = 1) :
    generateAlert v l = (decide (v < 0) || decide (v > parseFloatQ l)) := by
  simp only [generateAlert]
  rw [if_pos h]

theorem generateAlert_branch2 (v : ℚ) {l : List Char} (h1 : (splitSep ':' l).length ≠ 1)
    (h2 : endsWithColon l = true) :
    generateAlert v l = decide (v < parseFloatQ ((splitSep ':' l).getD 0 [])) := by
  simp only [generateAlert]
  rw [if_neg h1, if_pos h2]

theorem generateAlert_branch3 (v : ℚ) {l : List Char} (h1 : (splitSep ':' l).length ≠ 1)
    (h2 : endsWithColon l = false) (h3 : headIs '~' l = true) :
    generateAlert v l = decide (v > parseFloatQ ((splitSep ':' l).getD 1 [])) := by
  simp only [generateAlert]
  rw [if_neg h1, if_neg (by rw [h2]; simp), if_pos h3]

theorem generateAlert_branch4 (v : ℚ) {l : List Char} (h1 : (splitSep ':' l).length ≠ 1)
    (h2 : endsWithColon l = false) (h3 : headIs '~' l = false)
    (h4 : matchNumColonNum l = true) :
    generateAlert v l =
      (decide (v < parseFloatQ ((splitSep ':' l).getD 0 [])) ||
        decide (v > parseFloatQ ((splitSep ':' l).getD 1 []))) := by
  simp only [generateAlert]
  rw [if_neg h1, if_neg (by rw [h2]; simp), if_neg (by rw [h3]; simp), if_pos h4]

theorem generateAlert_branch5 (v : ℚ) {l : List Char} (h1 : (splitSep ':' l).length ≠ 1)
    (h2 : endsWithColon l = false) (h3 : headIs '~' l = false)
    (h4 : matchNumColonNum l = false) (h5 : headIs '@' l = true) :
    generateAlert v l =
      (decide (parseFloatQ (trimLeadingAt ((splitSep ':' l).getD 0 [])) ≤ v) &&
        decide (v ≤ parseFloatQ ((splitSep ':' l).getD 1 []))) := by
  simp only [generateAlert]
  rw [if_neg h1, if_neg (by rw [h2]; simp), if_neg (by rw [h3]; simp),
    if_neg (by rw [h4]; simp), if_pos h5]

theorem generateAlert_branch6 (v : ℚ) {l : List Char} (h1 : (splitSep ':' l).length ≠ 1)
    (h2 : endsWithColon l = false) (h3 : headIs '~' l = false)
    (h4 : matchNumColonNum l = false) (h5 : headIs '@' l = false) :
    generateAlert v l = true := by
  simp only [generateAlert]
  rw [if_neg h1, if_neg (by rw [h2]; simp), if_neg (by rw [h3]; simp),
    if_neg (by rw [h4]; simp), if_neg (by rw [h5]; simp)]

theorem endsWithColon_of_last_numDot {l₁ : List Char} (c : Char) {m : List Char}
    (hm : ∃ d, m.getLast? = some d ∧ isNumDot d) :
    endsWithColon (l₁ ++ c :: m) = false := by
  obtain ⟨d, hd, hdnum⟩ := hm
  have hmne : m ≠ [] := by
    intro hn
    rw [hn] at hd
    simp at hd
  obtain ⟨e, t, rfl⟩ := List.exists_cons_of_ne_nil hmne
  rw [endsWithColon, getLast_append_cons, show (c :: e :: t) = [c] ++ e :: t from rfl,
    getLast_append_cons, hd]
  have : ¬ d = ':' := by
    intro he
    rw [he] at hdnum
    exact absurd hdnum (by decide)
  simp [this]

theorem generateAlert_plain (v : ℚ) {n : List Char} (hn : IsUDec n) :
    generateAlert v n = decide (v < 0 ∨ v > udecVal n) := by
  have hsplit : splitSep ':' n = [n] := splitSep_no_sep (isUDec_no_colon hn)
  simp only [generateAlert, hsplit, List.length_cons, List.length_nil]
  norm_num
  rw [parseFloatQ_udec hn]

theorem generateAlert_low (v : ℚ) {n : List Char} (hn : IsUDec n) :
    generateAlert v (n ++ [':']) = decide (v < udecVal n) := by
  have hsplit : splitSep ':' (n ++ [':']) = [n, []] :=
    splitSep_split [] (isUDec_no_colon hn)
  have hends : endsWithColon (n ++ [':']) = true := by
    rw [endsWithColon, getLast_append_cons]
    rfl
  simp only [generateAlert, hsplit, List.length_cons, List.length_nil, hends]
  norm_num
  rw [parseFloatQ_udec hn]

theorem generateAlert_neginf (v : ℚ) {n : List Char} (hn : IsUDec n) :
    generateAlert v ('~' :: ':' :: n) = decide (v > udecVal n) := by
  have hsplit : splitSep ':' ('~' :: ':' :: n) = [['~'], n] := by
    rw [show ('~' :: ':' :: n) = ['~'] ++ ':' :: n from rfl,
      splitSep_split n (by intro c hc; simp at hc; rw [hc]; decide),
      splitSep_no_sep (isUDec_no_colon hn)]
  have hends : endsWithColon ('~' :: ':' :: n) = false :=
    @endsWithColon_of_last_numDot ['~'] ':' n (isUDec_getLast_numDot hn)
  have hhead : headIs '~' ('~' :: ':' :: n) = true := by
    simp [headIs]
  simp only [generateAlert, hsplit, List.length_cons, List.length_nil, hends, hhead]
  norm_num
  rw [parseFloatQ_udec hn]

theorem generateAlert_range (v : ℚ) {n m : List Char} (hn : IsUDec n) (hm : IsUDec m) :
    generateAlert v (n ++ ':' :: m) = decide (v < udecVal n ∨ v > udecVal m) := by
  have hcolon : isNumDot ':' = false := by decide
  obtain ⟨c, t, rfl⟩ := List.exists_cons_of_ne_nil (isUDec_ne_nil hn)
  obtain ⟨d, u, rfl⟩ := List.exists_cons_of_ne_nil (isUDec_ne_nil hm)
  have hsplit : splitSep ':' ((c :: t) ++ ':' :: (d :: u)) = [c :: t, d :: u] := by
    rw [splitSep_split _ (isUDec_no_colon hn), splitSep_no_sep (isUDec_no_colon hm)]
  have hends : endsWithColon ((c :: t) ++ ':' :: (d :: u)) = false :=
    endsWithColon_of_last_numDot ':' (isUDec_getLast_numDot hm)
  have hchead : isNumDot c := hn.1 c (by simp)
  have hhead : headIs '~' ((c :: t) ++ ':' :: (d :: u)) = false := by
    rw [List.cons_append, headIs]
    have : ¬ c = '~' := by
      intro he
      rw [he] at hchead
      exact absurd hchead (by decide)
    simp [this]
  have hmatch : matchNumColonNum ((c :: t) ++ ':' :: (d :: u)) = true := by
    rw [matchNumColonNum, takeWhile_append_stop _ _ hn.1 hcolon,
      dropWhile_append_stop _ _ hn.1 hcolon]
    have hd : isNumDot d := hm.1 d (by simp)
    simp [hd]
  simp only [generateAlert, hsplit, List.length_cons, List.length_nil, hends, hhead, hmatch]
  norm_num
  rw [parseFloatQ_udec hn, parseFloatQ_udec hm]

theorem generateAlert_inside (v : ℚ) {n m : List Char} (hn : IsUDec n) (hm : IsUDec m) :
    generateAlert v ('@' :: (n ++ ':' :: m)) = decide (udecVal n ≤ v ∧ v ≤ udecVal m) := by
  obtain ⟨d, u, rfl⟩ := List.exists_cons_of_ne_nil (isUDec_ne_nil hm)
  have hsplit : splitSep ':' ('@' :: (n ++ ':' :: (d :: u))) = ['@' :: n, d :: u] := by
    rw [show ('@' :: (n ++ ':' :: (d :: u))) = ('@' :: n) ++ ':' :: (d :: u) from rfl]
    have hall : ∀ x ∈ '@' :: n, ¬ x = ':' := by
      intro x hx
      rcases List.mem_cons.mp hx with h | h
      · rw [h]; decide
      · exact isUDec_no_colon hn x h
    rw [splitSep_split _ hall, splitSep_no_sep (isUDec_no_colon hm)]
  have hends : endsWithColon ('@' :: (n ++ ':' :: (d :: u))) = false := by
    rw [show ('@' :: (n ++ ':' :: (d :: u))) = ('@' :: n) ++ ':' :: (d :: u) from rfl]
    exact endsWithColon_of_last_numDot ':' (isUDec_getLast_numDot hm)
  have hhead : headIs '~' ('@' :: (n ++ ':' :: (d :: u))) = false := by
    simp [headIs]
  have hheadAt : headIs '@' ('@' :: (n ++ ':' :: (d :: u))) = true := by
    simp [headIs]
  have hmatch : matchNumColonNum ('@' :: (n ++ ':' :: (d :: u))) = false := by
    rw [matchNumColonNum, List.takeWhile_cons]
    simp [show isNumDot '@' = false from by decide]
  simp only [generateAlert, hsplit, List.length_cons, List.length_nil, hends, hhead, hmatch,
    hheadAt]
  norm_num [trimLeadingAt]
  rw [parseFloatQ_udec hn, parseFloatQ_udec hm]

/-! ## Claim theorems -/

/-- Claim C1: for every value, `generateAlert` follows the five-form Nagios
range grammar with the stated boundary semantics — plain `N` alerts iff
`v < 0 ∨ v > N`; `N:` alerts iff `v < N`; `~:N` alerts iff `v > N`; `N:M`
alerts iff `v < N ∨ v > M` (so `10:20` alerts at `9.999` and at `20.0001`
but not at `10` or `20`); `@N:M` alerts iff `N ≤ v ≤ M` (so `@10:20` alerts
at `15` and not at `25`).  The numeric components `N`, `M` range over the
unsigned decimal numerals recognized by the dispatch pattern (`IsUDec`). -/
theorem C1_threshold_grammar :
    (∀ (v : ℚ) (n : List Char), IsUDec n →
      generateAlert v n = decide (v < 0 ∨ v > udecVal n)) ∧
    (∀ (v : ℚ) (n : List Char), IsUDec n →
      generateAlert v (n ++ [':']) = decide (v < udecVal n)) ∧
    (∀ (v : ℚ) (n : List Char), IsUDec n →
      generateAlert v ('~' :: ':' :: n) = decide (v > udecVal n)) ∧
    (∀ (v : ℚ) (n m : List Char), IsUDec n → IsUDec m →
      generateAlert v (n ++ ':' :: m) = decide (v < udecVal n ∨ v > udecVal m)) ∧
    (∀ (v : ℚ) (n m : List Char), IsUDec n → IsUDec m →
      generateAlert v ('@' :: (n ++ ':' :: m)) = decide (udecVal n ≤ v ∧ v ≤ udecVal m)) ∧
    generateAlert (Rat.divInt 9999 1000) ("10:20".data) = true ∧
    generateAlert (Rat.divInt 200001 10000) ("10:20".data) = true ∧
    generateAlert 10 ("10:20".data) = false ∧
    generateAlert 20 ("10:20".data) = false ∧
    generateAlert 15 ("@10:20".data) = true ∧
    generateAlert 25 ("@10:20".data) = false := by
  refine ⟨?_, ?_, ?_, ?_, ?_, by decide, by decide, by decide, by decide, by decide, by decide⟩
  · exact fun v n hn => generateAlert_plain v hn
  · exact fun v n hn => generateAlert_low v hn
  · exact fun v n hn => generateAlert_neginf v hn
  · exact fun v n m hn hm => generateAlert_range v hn hm
  · exact fun v n m hn hm => generateAlert_inside v hn hm

/-- Witness for C1: the bounded-range form instantiated at `v = 15`,
range `10:20`, with the numeral hypotheses discharged concretely. -/
theorem C1_threshold_grammar_witness :
    IsUDec ("10".data) ∧ IsUDec ("20".data) ∧
    generateAlert 15 (("10".data) ++ ':' :: ("20".data)) =
      decide ((15 : ℚ) < udecVal ("10".data) ∨ (15 : ℚ) > udecVal ("20".data)) :=
  ⟨by decide, by decide,
    C1_threshold_grammar.2.2.2.1 15 ("10".data) ("20".data) (by decide) (by decide)⟩

/-- Claim C2: `getNagiosReturnVal` returns 2 when the critical range fires,
else 1 when the warning range fires, else 0 (critical takes precedence),
and with warning `10`, critical `20` it maps 25 to 2, 15 to 1 and 5 to 0. -/
theorem C2_classify :
    (∀ (v : ℚ) (warn crit : List Char),
      getNagiosReturnVal v warn crit = classifySpec v warn crit) ∧
    getNagiosReturnVal 25 ("10".data) ("20".data) = 2 ∧
    getNagiosReturnVal 15 ("10".data) ("20".data) = 1 ∧
    getNagiosReturnVal 5 ("10".data) ("20".data) = 0 := by
  refine ⟨?_, by decide, by decide, by decide⟩
  intro v warn crit
  cases hw : generateAlert v warn <;> cases hc : generateAlert v crit <;>
    simp [getNagiosReturnVal, classifySpec, hw, hc]

/-- Counterexample to claim C4: the range string `abc` has a malformed
numeric component, yet `generateAlert` does not degrade to always-alert —
at value `0` it does not alert, because the failed parse yields the zero
bound and the plain form then tests `0 < 0 ∨ 0 > 0`. -/
theorem C4_counterexample : generateAlert 0 ("abc".data) = false := by decide

/-- Claim C4 as amended: evaluation of a range with a malformed numeric
component never aborts and treats the failed parse as a zero bound inside
the matched form — plain form: alert iff `v < 0 ∨ v > 0`; `X:`: alert iff
`v < 0`; `~:X`: alert iff `v > 0`; `@X:Y` with both malformed: alert iff
`0 ≤ v ≤ 0` — while only a string matching none of the five dispatch
cases degrades to always-alert. -/
theorem C4_malformed_zero_bound :
    (∀ (v : ℚ) (l : List Char), (∀ c ∈ l, ¬ c = ':') → parseGoFloat l = none →
      generateAlert v l = decide (v < 0 ∨ v > 0)) ∧
    (∀ (v : ℚ) (x : List Char), (∀ c ∈ x, ¬ c = ':') → parseGoFloat x = none →
      generateAlert v (x ++ [':']) = decide (v < 0)) ∧
    (∀ (v : ℚ) (n : List Char), (∀ c ∈ n, ¬ c = ':') → n ≠ [] →
      parseGoFloat n = none →
      generateAlert v ('~' :: ':' :: n) = decide (v > 0)) ∧
    (∀ (v : ℚ) (x m : List Char), (∀ c ∈ x, ¬ c = ':') → (∀ c ∈ m, ¬ c = ':') → m ≠ [] →
      parseGoFloat x = none → parseGoFloat m = none →
      generateAlert v ('@' :: (x ++ ':' :: m)) = decide ((0 : ℚ) ≤ v ∧ v ≤ 0)) ∧
    (∀ (v : ℚ) (l : List Char), (splitSep ':' l).length ≠ 1 → endsWithColon l = false →
      headIs '~' l = false → matchNumColonNum l = false → headIs '@' l = false →
      generateAlert v l = true) := by
  refine ⟨?_, ?_, ?_, ?_, ?_⟩
  · intro v l hnc hfail
    have hsplit : splitSep ':' l = [l] := splitSep_no_sep hnc
    rw [generateAlert_branch1 v (by rw [hsplit]; rfl), parseFloatQ_of_fail hfail]
    exact (Bool.decide_or _ _).symm
  · intro v x hnc hfail
    have hsplit : splitSep ':' (x ++ [':']) = [x, []] := splitSep_split [] hnc
    have hends : endsWithColon (x ++ [':']) = true := by
      rw [endsWithColon, getLast_append_cons]
      rfl
    rw [generateAlert_branch2 v (by rw [hsplit]; simp) hends, hsplit]
    have hg : ([x, []] : List (List Char)).getD 0 [] = x := rfl
    rw [hg, parseFloatQ_of_fail hfail]
  · intro v n hnc hne hfail
    have hsplit : splitSep ':' ('~' :: ':' :: n) = [['~'], n] := by
      rw [show ('~' :: ':' :: n) = ['~'] ++ ':' :: n from rfl,
        splitSep_split n (by intro c hc; simp at hc; rw [hc]; decide),
        splitSep_no_sep hnc]
    have hends : endsWithColon ('~' :: ':' :: n) = false :=
      endsWithColon_false_of_no_colon hnc hne ['~'] ':'
    have hhead : headIs '~' ('~' :: ':' :: n) = true := by simp [headIs]
    rw [generateAlert_branch3 v (by rw [hsplit]; simp) hends hhead, hsplit]
    have hg : ([['~'], n] : List (List Char)).getD 1 [] = n := rfl
    rw [hg, parseFloatQ_of_fail hfail]
  · intro v x m hncx hncm hmne hfailx hfailm
    have hall : ∀ c ∈ '@' :: x, ¬ c = ':' := by
      intro c hc
      rcases List.mem_cons.mp hc with h | h
      · rw [h]; decide
      · exact hncx c h
    have hshape : ('@' :: (x ++ ':' :: m)) = ('@' :: x) ++ ':' :: m := rfl
    have hsplit : splitSep ':' ('@' :: (x ++ ':' :: m)) = ['@' :: x, m] := by
      rw [hshape, splitSep_split _ hall, splitSep_no_sep hncm]
    have hends : endsWithColon ('@' :: (x ++ ':' :: m)) = false := by
      rw [hshape]
      exact endsWithColon_false_of_no_colon hncm hmne ('@' :: x) ':'
    have hhead : headIs '~' ('@' :: (x ++ ':' :: m)) = false := by simp [headIs]
    have hheadAt : headIs '@' ('@' :: (x ++ ':' :: m)) = true := by simp [headIs]
    have hmatch : matchNumColonNum ('@' :: (x ++ ':' :: m)) = false := by
      rw [matchNumColonNum, List.takeWhile_cons]
      simp [show isNumDot '@' = false from by decide]
    rw [generateAlert_branch5 v (by rw [hsplit]; simp) hends hhead hmatch hheadAt, hsplit]
    have hg0 : (['@' :: x, m] : List (List Char)).getD 0 [] = '@' :: x := rfl
    have hg1 : (['@' :: x, m] : List (List Char)).getD 1 [] = m := rfl
    have htrim : trimLeadingAt ('@' :: x) = x := by simp [trimLeadingAt]
    rw [hg0, hg1, htrim, parseFloatQ_of_fail hfailx, parseFloatQ_of_fail hfailm]
    exact (Bool.decide_and _ _).symm
  · intro v l hlen hends hhead hmatch hheadAt
    exact generateAlert_branch6 v hlen hends hhead hmatch hheadAt

/-- Witness for the amended C4: the plain form at value `1` and the
malformed component `abc` alerts because `1 > 0`. -/
theorem C4_malformed_zero_bound_witness :
    (∀ c ∈ ("abc".data), ¬ c = ':') ∧ parseGoFloat ("abc".data) = none ∧
    generateAlert 1 ("abc".data) = decide ((1 : ℚ) < 0 ∨ (1 : ℚ) > 0) :=
  ⟨by decide, by decide,
    C4_malformed_zero_bound.1 1 ("abc".data) (by decide) (by decide)⟩

/-! ## Probe and cache helper lemmas -/

theorem find?_none_of_not_found {items : List CounterInfoItem} {full : List Char}
    (h : ∀ v ∈ items, v.name.text ≠ full) :
    items.find? (fun v => v.name.text == full) = none := by
  rw [List.find?_eq_none]
  intro v hv
  simp [h v hv]

theorem queryHostRun_not_found_multi {items : List CounterInfoItem}
    {nodeIpAddr objectInstance counterName warn crit : List Char} (hne : counterName ≠ [])
    (hmiss : ∀ v ∈ items,
      v.name.text ≠ buildFullCounterName nodeIpAddr objectInstance counterName) :
    queryHostRun true items nodeIpAddr objectInstance counterName warn crit = (.next, []) := by
  simp only [queryHostRun, if_pos (List.length_pos.mpr hne), find?_none_of_not_found hmiss]
  rw [if_pos trivial]

theorem queryHostRun_found {items : List CounterInfoItem}
    {nodeIpAddr objectInstance counterName warn crit : List Char} {multi : Bool}
    {v : CounterInfoItem} {q : ℚ} (hne : counterName ≠ [])
    (hfind : items.find?
      (fun s => s.name.text == buildFullCounterName nodeIpAddr objectInstance counterName) =
      some v)
    (hval : parseGoFloat v.value.text = some q) :
    queryHostRun multi items nodeIpAddr objectInstance counterName warn crit =
      (.exitCode (getNagiosReturnVal q warn crit),
        [renderNagiosLine (returnValText (getNagiosReturnVal q warn crit)) objectInstance
          counterName v.value.text warn crit]) := by
  simp only [queryHostRun, if_pos (List.length_pos.mpr hne), hfind, hval]

theorem cacheFileName_congr {o1 o2 : List Char} (path : List Char) (uid : ℕ) (ip : List Char)
    (h : underscored o1 = underscored o2) :
    cacheFileName path uid ip o1 = cacheFileName path uid ip o2 := by
  rw [cacheFileName, cacheFileName, h]

theorem load_after_save {fs : FSState} {now : ℤ} {path : List Char} {uid : ℕ}
    {ip o1 o2 : List Char} {e : CounterEnvelope} {age : ℤ}
    (hkey : cacheFileName path uid ip o1 = cacheFileName path uid ip o2) (hage : 0 ≤ age) :
    loadStruct (saveStruct fs now path uid ip o1 e) now path uid ip o2 age = some e := by
  have hfind : fsLookup (saveStruct fs now path uid ip o1 e) (cacheFileName path uid ip o2) =
      some ⟨e, now⟩ := by
    rw [saveStruct, fsLookup]
    rw [List.find?_cons_of_pos _ (by simp [hkey])]
    rfl
  simp only [loadStruct, hfind]
  rw [if_neg (by omega : ¬ (now - now > age))]

/-! ## Claim theorems for the orchestrator, probe and cache -/

/-- Counterexample to claim C3: with two targets and the counter found on
neither, the per-target outcomes are both UNKNOWN (exit 3 when standalone),
whose highest severity is 3, yet the multi-target run exits 0 — the code
has no severity aggregation at all: it exits at the first found counter and
falls off the loop (exit 0) when nothing is found. -/
theorem C3_counterexample :
    (queryHostRun false [] ("a".data) ("Memory".data) ("Foo".data) ("10".data)
        ("20".data)).1 = StepResult.exitCode 3 ∧
    (queryHostRun false [] ("b".data) ("Memory".data) ("Foo".data) ("10".data)
        ("20".data)).1 = StepResult.exitCode 3 ∧
    worstCode [3, 3] = 3 ∧
    (mainRun (fun _ => []) ("a,b".data) [] ("Memory".data) ("Foo".data) ("10".data)
        ("20".data)).1 = 0 :=
  ⟨by decide, by decide, by decide, by decide⟩

/-- Claim C3 as amended: in multi-target mode the targets are probed in
turn; a not-found target prints nothing and does not abort the rest; the
process exits with the code of the first target whose counter is found and
parses; and when no target finds the counter the loop ends and the process
exits 0 — there is no highest-severity reduction. -/
theorem C3_multi_target :
    (∀ (envf : List Char → List CounterInfoItem) (node : List Char) (rest : List (List Char))
       (objectInstance counterName warn crit : List Char), counterName ≠ [] →
      (∀ v ∈ envf node,
        v.name.text ≠ buildFullCounterName node objectInstance counterName) →
      runMulti envf (node :: rest) objectInstance counterName warn crit =
        runMulti envf rest objectInstance counterName warn crit) ∧
    (∀ (envf : List Char → List CounterInfoItem) (node : List Char) (rest : List (List Char))
       (objectInstance counterName warn crit : List Char) (v : CounterInfoItem) (q : ℚ),
      counterName ≠ [] →
      (envf node).find?
        (fun s => s.name.text == buildFullCounterName node objectInstance counterName) =
        some v →
      parseGoFloat v.value.text = some q →
      (runMulti envf (node :: rest) objectInstance counterName warn crit).1 =
        getNagiosReturnVal q warn crit) ∧
    (∀ (envf : List Char → List CounterInfoItem) (nodes : List (List Char))
       (objectInstance counterName warn crit : List Char), counterName ≠ [] →
      (∀ node ∈ nodes, ∀ v ∈ envf node,
        v.name.text ≠ buildFullCounterName node objectInstance counterName) →
      runMulti envf nodes objectInstance counterName warn crit = (0, [])) := by
  have hskip : ∀ (envf : List Char → List CounterInfoItem) (node : List Char)
      (rest : List (List Char)) (objectInstance counterName warn crit : List Char),
      counterName ≠ [] →
      (∀ v ∈ envf node,
        v.name.text ≠ buildFullCounterName node objectInstance counterName) →
      runMulti envf (node :: rest) objectInstance counterName warn crit =
        runMulti envf rest objectInstance counterName warn crit := by
    intro envf node rest objI cname warn crit hne hmiss
    simp [runMulti, queryHostRun_not_found_multi hne hmiss]
  refine ⟨hskip, ?_, ?_⟩
  · intro envf node rest objI cname warn crit v q hne hfind hval
    simp [runMulti, queryHostRun_found hne hfind hval]
  · intro envf nodes objI cname warn crit hne hmiss
    induction nodes with
    | nil => rfl
    | cons node rest ih =>
      rw [hskip envf node rest objI cname warn crit hne
        (hmiss node (by simp))]
      exact ih (fun nd hnd v hv => hmiss nd (by simp [hnd]) v hv)

/-- Witness for the amended C3: two targets, counter found on neither,
whole run yields exit 0 and no output. -/
theorem C3_multi_target_witness :
    (("Foo".data) ≠ ([] : List Char)) ∧
    runMulti (fun _ => []) [("a".data), ("b".data)] ("Memory".data) ("Foo".data)
      ("10".data) ("20".data) = (0, []) :=
  ⟨by decide,
    C3_multi_target.2.2 (fun _ => []) [("a".data), ("b".data)] ("Memory".data) ("Foo".data)
      ("10".data) ("20".data) (by decide) (by intro nd hnd v hv; simp at hv)⟩

/-- Counterexample to claim C5: an entry written in the same second it is
read back (here saved and loaded at time 100) is served by `loadStruct`
even with maximum age 0, because the age test `now - modTime > age` is
strict — so a load with max age 0 does not always miss. -/
theorem C5_counterexample :
    loadStruct
      (saveStruct ⟨[]⟩ 100 ("/tmp/".data) 0 ("10.0.0.1".data) ("Memory".data) sampleEnvelope)
      100 ("/tmp/".data) 0 ("10.0.0.1".data) ("Memory".data) 0 = some sampleEnvelope := by
  decide

/-- Claim C5 as amended: a save followed by an immediate load with any
nonnegative maximum age (0 included) succeeds and returns the saved
snapshot, and a load with maximum age 0 misses exactly the entries whose
modification time is strictly before the current time. -/
theorem C5_cache_roundtrip :
    (∀ (fs : FSState) (now : ℤ) (path : List Char) (uid : ℕ) (ip obj : List Char)
       (e : CounterEnvelope) (age : ℤ), 0 ≤ age →
      loadStruct (saveStruct fs now path uid ip obj e) now path uid ip obj age = some e) ∧
    (∀ (fs : FSState) (now : ℤ) (path : List Char) (uid : ℕ) (ip obj : List Char)
       (entry : CacheEntry),
      fsLookup fs (cacheFileName path uid ip obj) = some entry → entry.modTime < now →
      loadStruct fs now path uid ip obj 0 = none) := by
  constructor
  · intro fs now path uid ip obj e age hage
    exact load_after_save rfl hage
  · intro fs now path uid ip obj entry hfind hold
    simp only [loadStruct, hfind]
    rw [if_pos (by omega : now - entry.modTime > 0)]

/-- Witness for the amended C5: concrete save at time 100 followed by a
load at time 100 with the program's default maximum age 180. -/
theorem C5_cache_roundtrip_witness :
    (0 : ℤ) ≤ 180 ∧
    loadStruct
      (saveStruct ⟨[]⟩ 100 ("/tmp/".data) 0 ("10.0.0.1".data) ("Memory".data) sampleEnvelope)
      100 ("/tmp/".data) 0 ("10.0.0.1".data) ("Memory".data) 180 = some sampleEnvelope :=
  ⟨by decide,
    C5_cache_roundtrip.1 ⟨[]⟩ 100 ("/tmp/".data) 0 ("10.0.0.1".data) ("Memory".data)
      sampleEnvelope 180 (by decide)⟩

/-- Claim C6: in single-target mode, a requested counter missing from the
snapshot terminates the run with exit code 3, the UNKNOWN verdict, and a
message containing the unresolved fully-qualified counter name. -/
theorem C6_not_found_single :
    ∀ (items : List CounterInfoItem)
      (nodeIpAddr objectInstance counterName warn crit : List Char), counterName ≠ [] →
      (∀ v ∈ items,
        v.name.text ≠ buildFullCounterName nodeIpAddr objectInstance counterName) →
      queryHostRun false items nodeIpAddr objectInstance counterName warn crit =
        (StepResult.exitCode 3,
          [returnValText 3 ++ (" - Counter not found: ".data) ++
            buildFullCounterName nodeIpAddr objectInstance counterName]) ∧
      returnValText 3 = ("UNKNOWN".data) ∧
      (buildFullCounterName nodeIpAddr objectInstance counterName) <:+:
        (returnValText 3 ++ (" - Counter not found: ".data) ++
          buildFullCounterName nodeIpAddr objectInstance counterName) := by
  intro items nodeIp objI cname warn crit hne hmiss
  refine ⟨?_, rfl, ?_⟩
  · simp only [queryHostRun, if_pos (List.length_pos.mpr hne), find?_none_of_not_found hmiss]
    rw [if_neg (by simp)]
  · exact ⟨returnValText 3 ++ (" - Counter not found: ".data), [], by simp⟩

/-- Witness for C6: empty snapshot, counter `Foo` on node `10.0.0.1`,
object `Memory`. -/
theorem C6_not_found_single_witness :
    (("Foo".data) ≠ ([] : List Char)) ∧
    queryHostRun false [] ("10.0.0.1".data) ("Memory".data) ("Foo".data) ("10".data)
        ("20".data) =
      (StepResult.exitCode 3,
        [returnValText 3 ++ (" - Counter not found: ".data) ++
          buildFullCounterName ("10.0.0.1".data) ("Memory".data) ("Foo".data)]) :=
  ⟨by decide,
    (C6_not_found_single [] ("10.0.0.1".data) ("Memory".data) ("Foo".data) ("10".data)
      ("20".data) (by decide) (by intro v hv; simp at hv)).1⟩

/-- Claim C10: the cache key ignores the difference between spaces and
underscores in the object name, so two object names with the same
underscore-normalization share one cache file: the file names are equal, a
save under one name overwrites the other's slot, and a load under one name
serves what was saved under the other; `Cisco CallManager` and
`Cisco_CallManager` are such a distinct pair. -/
theorem C10_cache_key_collision :
    (∀ (path : List Char) (uid : ℕ) (ip o1 o2 : List Char),
      underscored o1 = underscored o2 →
      cacheFileName path uid ip o1 = cacheFileName path uid ip o2) ∧
    (∀ (fs : FSState) (now : ℤ) (path : List Char) (uid : ℕ) (ip o1 o2 : List Char)
       (e : CounterEnvelope) (age : ℤ), underscored o1 = underscored o2 → 0 ≤ age →
      loadStruct (saveStruct fs now path uid ip o1 e) now path uid ip o2 age = some e) ∧
    (∀ (fs : FSState) (t2 : ℤ) (path : List Char) (uid : ℕ) (ip o1 o2 : List Char)
       (e2 : CounterEnvelope), underscored o1 = underscored o2 →
      fsLookup (saveStruct fs t2 path uid ip o2 e2) (cacheFileName path uid ip o1) =
        some ⟨e2, t2⟩) ∧
    cacheFileName ("/tmp/".data) 0 ("10.0.0.1".data) ("Cisco CallManager".data) =
      cacheFileName ("/tmp/".data) 0 ("10.0.0.1".data) ("Cisco_CallManager".data) ∧
    ("Cisco CallManager".data) ≠ ("Cisco_CallManager".data) := by
  refine ⟨fun path uid ip o1 o2 h => cacheFileName_congr path uid ip h, ?_, ?_, by decide,
    by decide⟩
  · intro fs now path uid ip o1 o2 e age h hage
    exact load_after_save (cacheFileName_congr path uid ip h) hage
  · intro fs t2 path uid ip o1 o2 e2 h
    rw [saveStruct, fsLookup, cacheFileName_congr path uid ip h]
    rw [List.find?_cons_of_pos _ (by simp)]
    rfl

/-- Witness for C10: the `Cisco CallManager` / `Cisco_CallManager` pair, a
save under the spaced name served by a load under the underscored name. -/
theorem C10_cache_key_collision_witness :
    underscored ("Cisco CallManager".data) = underscored ("Cisco_CallManager".data) ∧
    (0 : ℤ) ≤ 180 ∧
    loadStruct
      (saveStruct ⟨[]⟩ 100 ("/tmp/".data) 0 ("10.0.0.1".data) ("Cisco CallManager".data)
        sampleEnvelope)
      100 ("/tmp/".data) 0 ("10.0.0.1".data) ("Cisco_CallManager".data) 180 =
      some sampleEnvelope :=
  ⟨by decide, by decide,
    C10_cache_key_collision.2.1 ⟨[]⟩ 100 ("/tmp/".data) 0 ("10.0.0.1".data)
      ("Cisco CallManager".data) ("Cisco_CallManager".data) sampleEnvelope 180 (by decide)
      (by decide)⟩

/-! ## Qualification pattern lemmas -/

theorem findBS_sound : ∀ {l a r : List Char}, findBS l = some (a, r) →
    l = a ++ '\\' :: r ∧ '\n' ∉ a := by
  intro l
  induction l with
  | nil => intro a r h; simp [findBS] at h
  | cons c t ih =>
    intro a r h
    rw [findBS] at h
    by_cases hbs : c = '\\'
    · rw [if_pos hbs] at h
      simp only [Option.some.injEq, Prod.mk.injEq] at h
      obtain ⟨ha, hr⟩ := h
      subst ha
      subst hr
      subst hbs
      exact ⟨rfl, by simp⟩
    · rw [if_neg hbs] at h
      by_cases hnl : c = '\n'
      · rw [if_pos hnl] at h
        simp at h
      · rw [if_neg hnl] at h
        rw [Option.map_eq_some'] at h
        obtain ⟨⟨a', r'⟩, hf, heq⟩ := h
        obtain ⟨hl, hn⟩ := ih hf
        simp only [Prod.mk.injEq] at heq
        obtain ⟨ha, hr⟩ := heq
        subst ha
        subst hr
        refine ⟨by rw [hl]; rfl, ?_⟩
        intro hmem
        rcases List.mem_cons.mp hmem with he | he
        · exact hnl he.symm
        · exact hn he

theorem findBS_isSome_of_exists : ∀ (a : List Char) {l r : List Char},
    l = a ++ '\\' :: r → '\n' ∉ a → (findBS l).isSome = true := by
  intro a
  induction a with
  | nil =>
    intro l r h _
    subst h
    simp [findBS]
  | cons c a' ih =>
    intro l r h hn
    subst h
    rw [List.cons_append, findBS]
    by_cases hbs : c = '\\'
    · rw [if_pos hbs]
      rfl
    · have hnl : ¬ c = '\n' := by
        intro he
        exact hn (by rw [he]; simp)
      rw [if_neg hbs, if_neg hnl]
      have hsome := @ih (a' ++ '\\' :: r) r rfl (fun hm => hn (by simp [hm]))
      cases hf : findBS (a' ++ '\\' :: r) with
      | none => rw [hf] at hsome; simp at hsome
      | some p => rfl

theorem hasTwoBS_iff : ∀ (l : List Char),
    hasTwoBS l = true ↔
      ∃ a b c, l = a ++ '\\' :: (b ++ '\\' :: c) ∧ '\n' ∉ a ∧ '\n' ∉ b := by
  intro l
  induction l with
  | nil =>
    constructor
    · intro h
      simp [hasTwoBS, findBS] at h
    · rintro ⟨a, b, c, h, -, -⟩
      exact absurd h (by simp)
  | cons ch t ih =>
    by_cases hbs : ch = '\\'
    · subst hbs
      have hred : hasTwoBS ('\\' :: t) = (findBS t).isSome := by
        rw [hasTwoBS, findBS, if_pos rfl]
      rw [hred]
      constructor
      · intro h
        obtain ⟨⟨b, c⟩, hf⟩ := Option.isSome_iff_exists.mp h
        obtain ⟨ht, hnb⟩ := findBS_sound hf
        exact ⟨[], b, c, by rw [ht]; rfl, by simp, hnb⟩
      · rintro ⟨a, b, c, hdec, hna, hnb⟩
        cases a with
        | nil =>
          injection hdec with h1 ht
          exact findBS_isSome_of_exists b ht hnb
        | cons x a' =>
          injection hdec with hx ht
          refine findBS_isSome_of_exists a' ht ?_
          intro hm
          exact hna (by simp [hm])
    · by_cases hnl : ch = '\n'
      · subst hnl
        constructor
        · intro h
          simp [hasTwoBS, findBS] at h
        · rintro ⟨a, b, c, hdec, hna, hnb⟩
          cases a with
          | nil =>
            injection hdec with h1 ht
            exact absurd h1 (by decide)
          | cons x a' =>
            injection hdec with h1 ht
            exact (hna (by rw [h1]; simp)).elim
      · have hstep : hasTwoBS (ch :: t) = hasTwoBS t := by
          rw [hasTwoBS, hasTwoBS, findBS, if_neg hbs, if_neg hnl]
          cases hf : findBS t with
          | none => rfl
          | some p =>
            obtain ⟨a, r⟩ := p
            rfl
        rw [hstep, ih]
        constructor
        · rintro ⟨a, b, c, hdec, hna, hnb⟩
          refine ⟨ch :: a, b, c, by rw [hdec]; rfl, ?_, hnb⟩
          intro hm
          rcases List.mem_cons.mp hm with he | he
          · exact hnl he.symm
          · exact hna he
        · rintro ⟨a, b, c, hdec, hna, hnb⟩
          cases a with
          | nil =>
            injection hdec with h1 ht
            exact absurd h1 hbs
          | cons x a' =>
            injection hdec with h1 ht
            exact ⟨a', b, c, ht, fun hm => hna (by simp [hm]), hnb⟩

theorem isFullQualified_iff (cname : List Char) :
    isFullQualified cname = true ↔
      ∃ a b c, cname = '\\' :: '\\' :: (a ++ '\\' :: (b ++ '\\' :: c)) ∧
        '\n' ∉ a ∧ '\n' ∉ b := by
  cases cname with
  | nil =>
    constructor
    · intro h; simp [isFullQualified] at h
    · rintro ⟨a, b, c, h, -, -⟩; exact absurd h (by simp)
  | cons c1 rest1 =>
    cases rest1 with
    | nil =>
      constructor
      · intro h; simp [isFullQualified] at h
      · rintro ⟨a, b, c, h, -, -⟩
        injection h with h1 h2
        exact absurd h2 (by simp)
    | cons c2 rest =>
      rw [isFullQualified]
      simp only [Bool.and_eq_true, decide_eq_true_eq]
      rw [hasTwoBS_iff]
      constructor
      · rintro ⟨⟨h1, h2⟩, a, b, c, hdec, hna, hnb⟩
        exact ⟨a, b, c, by rw [h1, h2, hdec], hna, hnb⟩
      · rintro ⟨a, b, c, hdec, hna, hnb⟩
        injection hdec with h1 hrest
        injection hrest with h2 hrest2
        exact ⟨⟨h1, h2⟩, a, b, c, hrest2, hna, hnb⟩

/-- Claim C7: an already fully-qualified counter name (one matching the
prefix pattern, a purely syntactic test characterized by the decomposition
below, with no catalog validation) is passed through unchanged, and any
other name is synthesized as `\\<node>\<object>\<counter>`; counter `Foo`
on node `10.0.0.1`, object `Memory` yields `\\10.0.0.1\Memory\Foo`. -/
theorem C7_full_qualification :
    (∀ (nodeIpAddr objectInstance counterName : List Char),
      isFullQualified counterName = true →
      buildFullCounterName nodeIpAddr objectInstance counterName = counterName) ∧
    (∀ (nodeIpAddr objectInstance counterName : List Char),
      isFullQualified counterName = false →
      buildFullCounterName nodeIpAddr objectInstance counterName =
        '\\' :: '\\' :: nodeIpAddr ++ '\\' :: objectInstance ++ '\\' :: counterName) ∧
    (∀ counterName : List Char,
      isFullQualified counterName = true ↔
        ∃ a b c, counterName = '\\' :: '\\' :: (a ++ '\\' :: (b ++ '\\' :: c)) ∧
          '\n' ∉ a ∧ '\n' ∉ b) ∧
    isFullQualified ("Foo".data) = false ∧
    buildFullCounterName ("10.0.0.1".data) ("Memory".data) ("Foo".data) =
      ("\\\\10.0.0.1\\Memory\\Foo".data) := by
  refine ⟨?_, ?_, isFullQualified_iff, by decide, by decide⟩
  · intro node objI cname h
    rw [buildFullCounterName, if_pos h]
  · intro node objI cname h
    rw [buildFullCounterName, if_neg (by rw [h]; simp)]

/-- Witness for C7: the qualified name `\\n\o\c` is passed through, the
unqualified `Foo` is synthesized. -/
theorem C7_full_qualification_witness :
    isFullQualified ("\\\\n\\o\\c".data) = true ∧
    buildFullCounterName ("10.0.0.1".data) ("Memory".data) ("\\\\n\\o\\c".data) =
      ("\\\\n\\o\\c".data) :=
  ⟨by decide,
    C7_full_qualification.1 ("10.0.0.1".data) ("Memory".data) ("\\\\n\\o\\c".data) (by decide)⟩

/-! ## Listing lemmas (v0.3 empty-counter-name branch) -/

theorem sample_foldl_ge (items : List Sample) :
    ∀ m : ℕ, m ≤ items.foldl (fun m s => if s.name.length > m then s.name.length else m) m := by
  induction items with
  | nil => intro m; exact le_refl m
  | cons s t ih =>
    intro m
    rw [List.foldl_cons]
    refine le_trans ?_ (ih _)
    by_cases h : s.name.length > m
    · rw [if_pos h]; omega
    · rw [if_neg h]

theorem sample_le_foldl {s : Sample} :
    ∀ {items : List Sample}, s ∈ items → ∀ m : ℕ,
      s.name.length ≤ items.foldl (fun m s => if s.name.length > m then s.name.length else m) m := by
  intro items
  induction items with
  | nil => intro h; simp at h
  | cons hd t ih =>
    intro hmem m
    rw [List.foldl_cons]
    rcases List.mem_cons.mp hmem with he | hmem'
    · refine le_trans ?_ (sample_foldl_ge t _)
      subst he
      by_cases h : s.name.length > m
      · rw [if_pos h]
      · rw [if_neg h]; omega
    · exact ih hmem' _

theorem le_maxNameLen {items : List Sample} {s : Sample} (h : s ∈ items) :
    s.name.length ≤ maxNameLen items :=
  sample_le_foldl h 0

theorem alignedLine_drop {items : List Sample} {s : Sample} (h : s ∈ items) :
    (alignedLine (maxNameLen items) s).drop (maxNameLen items + 9) =
      ("Value: ".data) ++ s.value := by
  have hle := le_maxNameLen h
  have hsh : alignedLine (maxNameLen items) s =
      (("Name: ".data) ++ s.name ++ List.replicate (maxNameLen items + 3 - s.name.length) ' ') ++
        (("Value: ".data) ++ s.value) := by
    rw [alignedLine]
    simp [List.append_assoc]
  have hlen : (("Name: ".data) ++ s.name ++
      List.replicate (maxNameLen items + 3 - s.name.length) ' ').length =
      maxNameLen items + 9 := by
    simp only [List.length_append, List.length_replicate, List.length_cons, List.length_nil]
    omega
  rw [hsh, ← hlen, List.drop_left]

/-- Counterexample to claim C8: the listing is NOT sorted by counter name —
a snapshot stored as `B` before `A` is printed in that stored order, and
differs from the sorted rendering the claim requires. -/
theorem C8_counterexample :
    (runListingV03 [⟨("B".data), ("1".data)⟩, ⟨("A".data), ("2".data)⟩]).2 ≠
      sortedListingSpec [⟨("B".data), ("1".data)⟩, ⟨("A".data), ("2".data)⟩] := by
  decide

/-- Claim C8 as amended: with an empty counter name the v0.3 run prints one
line per sample in the snapshot's stored order (not sorted), with the
`Value:` column aligned at the fixed offset `maxNameLen + 9`, performs no
threshold evaluation, and exits 0. -/
theorem C8_listing_aligned_unsorted :
    ∀ (items : List Sample) (s : Sample), s ∈ items →
      (runListingV03 items).1 = 0 ∧
      (runListingV03 items).2 = items.map (alignedLine (maxNameLen items)) ∧
      (alignedLine (maxNameLen items) s).drop (maxNameLen items + 9) =
        ("Value: ".data) ++ s.value := by
  intro items s h
  exact ⟨rfl, rfl, alignedLine_drop h⟩

/-- Witness for the amended C8: the one-sample snapshot `UsedMB = 512`. -/
theorem C8_listing_aligned_unsorted_witness :
    (⟨("UsedMB".data), ("512".data)⟩ : Sample) ∈ [(⟨("UsedMB".data), ("512".data)⟩ : Sample)] ∧
    (alignedLine (maxNameLen [(⟨("UsedMB".data), ("512".data)⟩ : Sample)])
        ⟨("UsedMB".data), ("512".data)⟩).drop
        (maxNameLen [(⟨("UsedMB".data), ("512".data)⟩ : Sample)] + 9) =
      ("Value: ".data) ++ ("512".data) :=
  ⟨by decide,
    (C8_listing_aligned_unsorted [(⟨("UsedMB".data), ("512".data)⟩ : Sample)]
      ⟨("UsedMB".data), ("512".data)⟩ (by decide)).2.2⟩

/-! ## Rendering lemmas -/

theorem replaceAll_append (f : Char → List Char) (a b : List Char) :
    replaceAll f (a ++ b) = replaceAll f a ++ replaceAll f b := by
  simp [replaceAll]

theorem escAll_append (a b : List Char) : escAll (a ++ b) = escAll a ++ escAll b := by
  simp [escAll]

theorem renderNagiosLine_eq_escAll_aux (l : List Char) :
    replaceAll backslashDoubleChar (replaceAll percentChar (replaceAll htmlEscapeChar l)) =
      escAll l := by
  induction l with
  | nil => rfl
  | cons c t ih =>
    have h1 : replaceAll htmlEscapeChar (c :: t) =
        htmlEscapeChar c ++ replaceAll htmlEscapeChar t := by
      rw [replaceAll, replaceAll, List.flatMap_cons]
    have h2 : escAll (c :: t) = escChar c ++ escAll t := by
      rw [escAll, escAll, List.flatMap_cons]
    rw [h1, replaceAll_append, replaceAll_append, ih, h2]
    rfl

theorem renderNagiosLine_eq_escAll
    (statusStr objectInstance counterName valueText warn crit : List Char) :
    renderNagiosLine statusStr objectInstance counterName valueText warn crit =
      escAll (plainStatusLine statusStr objectInstance counterName valueText warn crit) := by
  rw [renderNagiosLine]
  exact renderNagiosLine_eq_escAll_aux _

theorem escChar_eval (c : Char) (h1 : ¬ c = '&') (h2 : ¬ c = '\'') (h3 : ¬ c = '<')
    (h4 : ¬ c = '>') (h5 : ¬ c = '"') (h6 : ¬ c = '%') (h7 : ¬ c = '\\') :
    escChar c = [c] := by
  simp [escChar, replaceAll, htmlEscapeChar, percentChar, backslashDoubleChar,
    h1, h2, h3, h4, h5, h6, h7]

theorem percent_not_mem_escChar (c : Char) : '%' ∉ escChar c := by
  by_cases h1 : c = '&'
  · subst h1; decide
  by_cases h2 : c = '\''
  · subst h2; decide
  by_cases h3 : c = '<'
  · subst h3; decide
  by_cases h4 : c = '>'
  · subst h4; decide
  by_cases h5 : c = '"'
  · subst h5; decide
  by_cases h6 : c = '%'
  · subst h6; decide
  by_cases h7 : c = '\\'
  · subst h7; decide
  rw [escChar_eval c h1 h2 h3 h4 h5 h6 h7]
  intro hm
  rcases List.mem_singleton.mp hm with he
  exact h6 he.symm

theorem count_bs_escChar (c : Char) :
    (escChar c).count '\\' = 2 * ([c].count '\\') := by
  by_cases h1 : c = '&'
  · subst h1; decide
  by_cases h2 : c = '\''
  · subst h2; decide
  by_cases h3 : c = '<'
  · subst h3; decide
  by_cases h4 : c = '>'
  · subst h4; decide
  by_cases h5 : c = '"'
  · subst h5; decide
  by_cases h6 : c = '%'
  · subst h6; decide
  by_cases h7 : c = '\\'
  · subst h7; decide
  rw [escChar_eval c h1 h2 h3 h4 h5 h6 h7]
  simp [List.count_singleton, List.count_cons, h7]

theorem percent_not_mem_escAll (l : List Char) : '%' ∉ escAll l := by
  rw [escAll]
  intro hmem
  rw [List.mem_flatMap] at hmem
  obtain ⟨c, -, hc⟩ := hmem
  exact percent_not_mem_escChar c hc

theorem count_bs_escAll (l : List Char) : (escAll l).count '\\' = 2 * l.count '\\' := by
  induction l with
  | nil => rfl
  | cons c t ih =>
    rw [escAll] at ih ⊢
    rw [List.flatMap_cons, List.count_append, ih, List.count_cons, count_bs_escChar c]
    by_cases h : c = '\\'
    · subst h; simp [List.count_cons]; ring
    · simp [List.count_cons, h]

/-- Claim C9: the rendered status line is the template
`<STATUS> - UC Perfmon,<objectInstance>,<counter>=<value>|<counter>=<value>;<warn>;<crit>;;`
with every field escaped character-wise — HTML-special characters become
entities, `%` becomes the word `Percent`, and each backslash is doubled —
so the result contains no `%` at all and exactly twice the original number
of backslashes. -/
theorem C9_status_line :
    (∀ (statusStr objectInstance counterName valueText warn crit : List Char),
      renderNagiosLine statusStr objectInstance counterName valueText warn crit =
        escAll statusStr ++ (" - ".data) ++ ("UC Perfmon".data) ++ (",".data) ++
          escAll objectInstance ++ (",".data) ++ escAll counterName ++ ("=".data) ++
          escAll valueText ++ ("|".data) ++ escAll counterName ++ ("=".data) ++
          escAll valueText ++ (";".data) ++ escAll warn ++ (";".data) ++ escAll crit ++
          (";;".data)) ∧
    (∀ (statusStr objectInstance counterName valueText warn crit : List Char),
      '%' ∉ renderNagiosLine statusStr objectInstance counterName valueText warn crit) ∧
    (∀ (statusStr objectInstance counterName valueText warn crit : List Char),
      (renderNagiosLine statusStr objectInstance counterName valueText warn crit).count '\\' =
        2 * (plainStatusLine statusStr objectInstance counterName valueText warn
          crit).count '\\') := by
  refine ⟨?_, ?_, ?_⟩
  · intro st o cn vt w cr
    rw [renderNagiosLine_eq_escAll, plainStatusLine]
    simp only [escAll_append]
    rw [show escAll (" - ".data) = (" - ".data) from by decide,
      show escAll ("UC Perfmon".data) = ("UC Perfmon".data) from by decide,
      show escAll (",".data) = (",".data) from by decide,
      show escAll ("=".data) = ("=".data) from by decide,
      show escAll ("|".data) = ("|".data) from by decide,
      show escAll (";".data) = (";".data) from by decide,
      show escAll (";;".data) = (";;".data) from by decide]
  · intro st o cn vt w cr
    rw [renderNagiosLine_eq_escAll]
    exact percent_not_mem_escAll _
  · intro st o cn vt w cr
    rw [renderNagiosLine_eq_escAll]
    exact count_bs_escAll _

example : generateAlert 15 ("10:20".data) = false := by decide
example : generateAlert (Rat.divInt 9999 1000) ("10:20".data) = true := by decide
example : generateAlert (Rat.divInt 200001 10000) ("10:20".data) = true := by decide
example : generateAlert 10 ("10:20".data) = false := by decide
example : generateAlert 20 ("10:20".data) = false := by decide
example : generateAlert 15 ("@10:20".data) = true := by decide
example : generateAlert 25 ("@10:20".data) = false := by decide
example : generateAlert 0 ("abc".data) = false := by decide
example : getNagiosReturnVal 25 ("10".data) ("20".data) = 2 := by decide
example : getNagiosReturnVal 15 ("10".data) ("20".data) = 1 := by decide
example : getNagiosReturnVal 5 ("10".data) ("20".data) = 0 := by decide

example : isFullQualified ("\\\\10.0.0.1\\Memory\\Foo".data) = true := by decide
example : isFullQualified ("Foo".data) = false := by decide
example : buildFullCounterName ("10.0.0.1".data) ("Memory".data) ("Foo".data)
    = ("\\\\10.0.0.1\\Memory\\Foo".data) := by decide
example : underscored ("Cisco CallManager".data) = ("Cisco_CallManager".data) := by decide
example : cacheFileName ("/tmp/".data) 0 ("10.0.0.1".data) ("Cisco CallManager".data)
    = cacheFileName ("/tmp/".data) 0 ("10.0.0.1".data) ("Cisco_CallManager".data) := by decide
example :
    renderNagiosLine ("OK".data) ("Memory".data) ("% Mem".data) ("512".data) ("600".data) ("800".data)
    = escAll (plainStatusLine ("OK".data) ("Memory".data) ("% Mem".data) ("512".data) ("600".data) ("800".data)) := by decide
example :
    (mainRun (fun _ => []) ("a,b".data) ("".data) ("Memory".data) ("Foo".data) ("10".data) ("20".data)).1 = 0 := by decide

end CiscoUcPerf
